import Mathlib

/-!
Verification of the mox IMAP METADATA subsystem (RFC 5464 style
GETMETADATA/SETMETADATA command handlers, file metadata.go of package
imapserver) against its natural-language specification.

Strings from the Go code are embedded as lists of characters; the
persisted annotation table of one account is embedded as a list of rows.
The transactional store, the account lock and the protocol reader are
external collaborators per the specification; where their behavior
matters it is modelled explicitly and documented at the definition.
-/

namespace Mox

/-- A Go string / byte slice, embedded as its list of characters. -/
abbrev Str := List Char

/-- Row of the persisted annotation table: translation of the fields of
store.Annotation used by metadata.go (MailboxID 0 means the account-global
scope, Key the slash-delimited entry name, IsString the text flag,
Value the stored bytes). Go allows a nil byte slice distinct from an
empty one, so Value is an Option; a "delete" request is a pair whose
Value is none, and persisted rows always carry some value. -/
structure AnnotationRow where
  MailboxID : Nat
  Key : Str
  IsString : Bool
  Value : Option Str
deriving DecidableEq, Repr

/-- Length of the stored value; Go len of a nil slice is 0. -/
def valueLen (a : AnnotationRow) : Nat := (a.Value.getD []).length

/-- Go metadataMaxKeys (default, changed during tests). -/
def metadataMaxKeys : Nat := 1000

/-- Go metadataMaxSize (default, changed during tests). -/
def metadataMaxSize : Nat := 1000 * 1000

/-- Split off the part of a string before and after the first occurrence
of character c; none when c does not occur. Helper for splitN. -/
def splitFirst (c : Char) : Str → Option (Str × Str)
  | [] => none
  | x :: xs =>
    if x = c then some ([], xs)
    else
      match splitFirst c xs with
      | none => none
      | some p => some (x :: p.1, p.2)

/-- Go strings.SplitN with a single-character separator: at most n parts,
the last part keeps the unsplit remainder. n = 0 yields no parts. -/
def splitN (c : Char) : Nat → Str → List Str
  | 0, _ => []
  | 1, s => [s]
  | n + 2, s =>
    match splitFirst c s with
    | none => [s]
    | some p => p.1 :: splitN c (n + 1) p.2

/-- The prefix derived from one requested entry name in the depth-matching
loop of cmdGetmetadata: the entry name followed by a slash, except that a
bare "/" stays as is. -/
def entryPfx (s : Str) : Str :=
  if s ≠ ['/'] then s ++ ['/'] else s

/-- One requested entry name s against a stored key under depth "1" or
"INFINITY": translation of the body of the for-loop over entryNames in
cmdGetmetadata (prefix test, INFINITY shortcut, SplitN remainder test). -/
def depthMatchOne (optDepth : String) (key : Str) (s : Str) : Bool :=
  let pfx := entryPfx s
  if ¬ pfx.isPrefixOf key then false
  else if optDepth = "INFINITY" then true
  else decide ((splitN '/' 2 (key.drop pfx.length)).length = 1)

/-- The depth switch of cmdGetmetadata deciding whether a stored key is
matched by the requested entry-name set under the given depth option.
none embeds the default case of the switch, which the code treats as a
server fault (parsing restricts optDepth to the four legal values). -/
def depthMatch (entryNames : List Str) (optDepth : String) (key : Str) : Option Bool :=
  if optDepth = "" ∨ optDepth = "0" then
    some (entryNames.contains key)
  else if optDepth = "1" ∨ optDepth = "INFINITY" then
    some (entryNames.contains key || entryNames.any (depthMatchOne optDepth key))
  else none

/-- Accumulator of the GET scan: the matched annotations in iteration
order and the size of the largest value skipped due to MAXSIZE
(longentries, -1 when none was skipped). -/
structure GetAcc where
  annotations : List AnnotationRow
  longentries : Int
deriving DecidableEq, Repr

/-- Body of the ForEach of cmdGetmetadata for one stored annotation:
depth switch, then either record the skipped length (when a MAXSIZE was
given and the value is longer) or append the row to the results. -/
def getStep (entryNames : List Str) (optDepth : String) (optMaxSize : Int)
    (acc : GetAcc) (a : AnnotationRow) : GetAcc :=
  match depthMatch entryNames optDepth a.Key with
  | some true =>
    if 0 ≤ optMaxSize ∧ optMaxSize < Int.ofNat (valueLen a) then
      { acc with longentries := max acc.longentries (Int.ofNat (valueLen a)) }
    else
      { acc with annotations := acc.annotations ++ [a] }
  | _ => acc

/-- The whole GET scan over the stored annotations of the requested scope,
starting from no results and longentries = -1 as in cmdGetmetadata. -/
def getScan (entryNames : List Str) (optDepth : String) (optMaxSize : Int)
    (rows : List AnnotationRow) : GetAcc :=
  rows.foldl (getStep entryNames optDepth optMaxSize) ⟨[], -1⟩

/-- Errors surfaced by cmdSetmetadata: the two validation user errors
(xuserErrorf) and the two quota errors with their response codes
(xusercodeErrorf METADATA TOOMANY / METADATA MAXSIZE limit). -/
inductive SetErr where
  | namespaceErr
  | vendorDepthErr
  | toomany
  | maxsize (limit : Nat)
deriving DecidableEq, Repr

/-- Validation of one SET entry name, translation of the checks in
cmdSetmetadata: the key must start with /private/, and a key equal to
/private/vendor or starting with /private/vendor/ must split (on /,
after dropping the leading slash, into at most 4 parts) into at least
4 parts. -/
def validateKey (k : Str) : Option SetErr :=
  if ¬ ("/private/".toList.isPrefixOf k) then some .namespaceErr
  else if k = "/private/vendor".toList ∨ ("/private/vendor/".toList.isPrefixOf k) then
    if (splitN '/' 4 (k.drop 1)).length < 4 then some .vendorDepthErr else none
  else none

/-- Validation loop over all pairs of the SET command, in order; the
first failing key determines the error. Runs before the write
transaction opens, as in cmdSetmetadata. -/
def validateKeys : List AnnotationRow → Option SetErr
  | [] => none
  | a :: rest =>
    match validateKey a.Key with
    | some e => some e
    | none => validateKeys rest

/-- Go bytes.Equal: nil and empty slices compare equal, otherwise the
bytes are compared. -/
def bytesEqual (x y : Option Str) : Bool := x.getD [] = y.getD []

/-- The row filter of the SET queries: Key equal to the pair's key and
MailboxID equal to the resolved scope (0 = account-global). -/
def annMatches (mbID : Nat) (key : Str) (r : AnnotationRow) : Bool :=
  r.Key = key && r.MailboxID = mbID

/-- A change record handed to the cross-session broadcast. Modelled from
the spec: store.Annotation.Change is outside the shown source; per the
spec (section 4.6) a record identifies the mutated annotation and the
mailbox name it is scoped by. -/
structure ChangeRec where
  mailboxName : String
  row : AnnotationRow
deriving DecidableEq, Repr

/-- One (entry-name, value) pair of a SET applied to the account's
annotation table: translation of the per-pair loop body of
cmdSetmetadata. A none value deletes the matching rows (gathering them
for change records); otherwise the row is inserted when absent (point
lookup via the store's Get, modelled as the first matching row — the
store keeps at most one row per (MailboxID, Key)) or updated in place,
with a change record only when flag, nilness or bytes differ. -/
def applyPair (mbID : Nat) (mbName : String) (db : List AnnotationRow)
    (a : AnnotationRow) : List AnnotationRow × List ChangeRec :=
  if a.Value = none then
    let deleted := db.filter (annMatches mbID a.Key)
    (db.filter (fun r => ! annMatches mbID a.Key r), deleted.map (fun oa => ⟨mbName, oa⟩))
  else
    let a2 := { a with MailboxID := mbID }
    match db.find? (annMatches mbID a.Key) with
    | none => (db ++ [a2], [⟨mbName, a2⟩])
    | some oa =>
      let ch :=
        if oa.IsString ≠ a2.IsString ∨ (oa.Value = none) ≠ (a2.Value = none)
            ∨ ¬ bytesEqual oa.Value a2.Value
        then [⟨mbName, a2⟩] else []
      (db.map (fun r => if annMatches mbID a.Key r then { r with Value := a2.Value } else r), ch)

/-- All pairs of one SET command applied left to right, collecting the
change records in order. -/
def applyPairs (mbID : Nat) (mbName : String) :
    List AnnotationRow → List AnnotationRow → List AnnotationRow × List ChangeRec
  | db, [] => (db, [])
  | db, a :: rest =>
    let p1 := applyPair mbID mbName db a
    let p2 := applyPairs mbID mbName p1.1 rest
    (p2.1, p1.2 ++ p2.2)

/-- Size contribution of one annotation row to the quota scan:
len(Key) + len(Value). -/
def rowSize (a : AnnotationRow) : Nat := a.Key.length + valueLen a

/-- Total size of a list of annotation rows. -/
def annotSize (rows : List AnnotationRow) : Nat := (rows.map rowSize).sum

/-- The quota scan of cmdSetmetadata, run after all mutations on every
annotation row of the account (the query carries no scope filter):
per row the count is incremented and checked first, then the size is
accumulated and checked, each failure aborting with its code. -/
def quotaScan (maxKeys maxSize : Nat) : Nat → Nat → List AnnotationRow → Option SetErr
  | _, _, [] => none
  | n, size, a :: rest =>
    if maxKeys < n + 1 then some .toomany
    else if maxSize < size + rowSize a then some (.maxsize maxSize)
    else quotaScan maxKeys maxSize (n + 1) (size + rowSize a) rest

/-- The whole SET command after parsing, translation of cmdSetmetadata:
entry-name validation first (before the write transaction), then the
mutations of every pair inside the transaction, then the quota scan over
the post-mutation account-wide table. An error result embeds the panic
paths (xuserErrorf / xusercodeErrorf), which roll the transaction back. -/
def setmetadata (maxKeys maxSize : Nat) (mbID : Nat) (mbName : String)
    (db : List AnnotationRow) (l : List AnnotationRow) :
    Except SetErr (List AnnotationRow × List ChangeRec) :=
  match validateKeys l with
  | some e => .error e
  | none =>
    let p := applyPairs mbID mbName db l
    match quotaScan maxKeys maxSize 0 0 p.1 with
    | some e => .error e
    | none => .ok p

/-- Externally observable outcome of one SET command: on any error the
transaction rolls back, so the persisted table is unchanged and no
change record is broadcast; on success the mutated table persists and
the collected change records are broadcast. -/
def runSet (maxKeys maxSize : Nat) (mbID : Nat) (mbName : String)
    (db : List AnnotationRow) (l : List AnnotationRow) :
    List AnnotationRow × List ChangeRec :=
  match setmetadata maxKeys maxSize mbID mbName db l with
  | .error _ => (db, [])
  | .ok p => p

/-- Modelled from the spec: the protocol reader's take primitive, an
external collaborator. It consumes the given token when the upcoming
input matches it; keywords are matched case-insensitively (the reader
keeps an upper-cased copy of the input, spec section 6). Returns the
remaining input on success. -/
def takeTok (pat rem : Str) : Option Str :=
  if (rem.take pat.length).map Char.toUpper = pat then some (rem.drop pat.length) else none

/-- Modelled from the spec: the protocol reader's xspace primitive,
demanding a single space character. -/
def xspace (rem : Str) : Option Str := takeTok [' '] rem

/-- Numeric value of a list of decimal digit characters. -/
def digitsToNat (ds : Str) : Nat := ds.foldl (fun n c => n * 10 + (c.toNat - '0'.toNat)) 0

/-- Modelled from the spec: the protocol reader's xnumber primitive,
demanding one or more decimal digits (a non-negative integer). -/
def xnumber (rem : Str) : Option (Nat × Str) :=
  let ds := rem.takeWhile (fun c => c.isDigit)
  if ds = [] then none
  else some (digitsToNat ds, rem.drop ds.length)

/-- Modelled from the spec: the protocol reader's xtakelist primitive,
trying each given token in order and yielding the first that matches. -/
def xtakelist : List Str → Str → Option (Str × Str)
  | [], _ => none
  | p :: ps, rem =>
    match takeTok p rem with
    | some rem2 => some (p, rem2)
    | none => xtakelist ps rem

/-- Options of a GETMETADATA command: MAXSIZE (-1 when absent, as in the
code) and DEPTH (empty string when absent). -/
structure GetOpts where
  maxSize : Int
  depth : String
deriving DecidableEq, Repr

/-- Protocol error message of the unknown-option branch of the
GETMETADATA option loop. -/
def errUnknownOption : String := "unknown option for getmetadata, expected maxsize or depth"

/-- Protocol error message of the duplicate MAXSIZE branch. -/
def errDupMaxsize : String := "only a single maxsize option accepted"

/-- Protocol error message of the duplicate DEPTH branch. -/
def errDupDepth : String := "only single depth option accepted"

/-- Protocol error message where a reader primitive demanded a space. -/
def errSpace : String := "missing space"

/-- Protocol error message where xnumber demanded digits. -/
def errNumber : String := "missing number"

/-- Protocol error message where xtakelist matched none of its tokens. -/
def errDepthValue : String := "expected 0, 1 or infinity"

/-- Fuel-exhaustion marker; the wrapper supplies enough fuel for any
input, since every loop iteration consumes at least one character. -/
def errFuel : String := "internal: fuel exhausted"

/-- The option loop of cmdGetmetadata (after the opening parenthesis was
consumed): per iteration one MAXSIZE or DEPTH option is demanded — any
other upcoming token is a protocol error — with duplicate occurrences
rejected after their argument is read; then either the closing
parenthesis ends the loop or a space separates the next option.
The loop state (optMaxSize, optDepth) starts at (-1, empty). -/
def getOptionsLoop : Nat → Int → String → Str → Except String (GetOpts × Str)
  | 0, _, _, _ => .error errFuel
  | fuel + 1, optMaxSize, optDepth, rem =>
    match takeTok "MAXSIZE".toList rem with
    | some rem1 =>
      match xspace rem1 with
      | none => .error errSpace
      | some rem2 =>
        match xnumber rem2 with
        | none => .error errNumber
        | some vr =>
          if 0 ≤ optMaxSize then .error errDupMaxsize
          else
            match takeTok [')'] vr.2 with
            | some rem4 => .ok (⟨Int.ofNat vr.1, optDepth⟩, rem4)
            | none =>
              match xspace vr.2 with
              | none => .error errSpace
              | some rem4 => getOptionsLoop fuel (Int.ofNat vr.1) optDepth rem4
    | none =>
      match takeTok "DEPTH".toList rem with
      | some rem1 =>
        match xspace rem1 with
        | none => .error errSpace
        | some rem2 =>
          match xtakelist ["0".toList, "1".toList, "INFINITY".toList] rem2 with
          | none => .error errDepthValue
          | some sr =>
            if optDepth ≠ "" then .error errDupDepth
            else
              match takeTok [')'] sr.2 with
              | some rem4 => .ok (⟨optMaxSize, String.mk sr.1⟩, rem4)
              | none =>
                match xspace sr.2 with
                | none => .error errSpace
                | some rem4 => getOptionsLoop fuel optMaxSize (String.mk sr.1) rem4
      | none => .error errUnknownOption

/-- The optional parenthesized option list of cmdGetmetadata: when an
opening parenthesis is present the option loop runs (one or more
options) and a space must follow the closing parenthesis; otherwise the
defaults (-1, empty depth) are kept and nothing is consumed. -/
def getmetadataOptions (rem : Str) : Except String (GetOpts × Str) :=
  match takeTok ['('] rem with
  | none => .ok (⟨-1, ""⟩, rem)
  | some rem1 =>
    match getOptionsLoop (rem1.length + 1) (-1) "" rem1 with
    | .error e => .error e
    | .ok or2 =>
      match xspace or2.2 with
      | none => .error errSpace
      | some rem3 => .ok (or2.1, rem3)

/-! Helper lemmas about the string primitives. -/

lemma splitFirst_eq_none (c : Char) (s : Str) : splitFirst c s = none ↔ c ∉ s := by
  induction s with
  | nil => simp [splitFirst]
  | cons x xs ih =>
    simp only [splitFirst, List.mem_cons]
    by_cases hx : x = c
    · simp [hx]
    · rw [if_neg hx]
      have hcx : ¬ c = x := fun hc => hx hc.symm
      cases h : splitFirst c xs with
      | none =>
        have hni : c ∉ xs := ih.mp h
        simp [hcx, hni]
      | some p =>
        have hmi : c ∈ xs := by
          by_contra hn
          rw [ih.mpr hn] at h
          cases h
        simp [hmi]

lemma splitFirst_eq_some (c : Char) :
    ∀ (s a b : Str), splitFirst c s = some (a, b) → s = a ++ c :: b ∧ c ∉ a := by
  intro s
  induction s with
  | nil => intro a b h; simp [splitFirst] at h
  | cons x xs ih =>
    intro a b h
    simp only [splitFirst] at h
    by_cases hx : x = c
    · rw [if_pos hx] at h
      obtain ⟨rfl, rfl⟩ := Prod.mk.injEq .. ▸ Option.some.injEq .. ▸ h
      simp [hx]
    · rw [if_neg hx] at h
      cases hs : splitFirst c xs with
      | none => rw [hs] at h; cases h
      | some p =>
        rw [hs] at h
        obtain ⟨h1, h2⟩ := ih p.1 p.2 (by rw [hs])
        obtain ⟨rfl, rfl⟩ := Prod.mk.injEq .. ▸ Option.some.injEq .. ▸ h
        constructor
        · simp [h1]
        · simp only [List.mem_cons, not_or]
          exact ⟨fun hc => hx hc.symm, h2⟩

lemma splitN_two_length (c : Char) (s : Str) : (splitN c 2 s).length = 1 ↔ c ∉ s := by
  show (splitN c (0 + 2) s).length = 1 ↔ c ∉ s
  rw [splitN]
  cases h : splitFirst c s with
  | none => simpa using (splitFirst_eq_none c s).mp h
  | some p =>
    obtain ⟨h1, _⟩ := splitFirst_eq_some c s p.1 p.2 h
    subst h1
    simp [splitN]

lemma splitN_length (c : Char) :
    ∀ (n : Nat) (s : Str), (splitN c (n + 1) s).length = min (s.count c + 1) (n + 1) := by
  intro n
  induction n with
  | zero => intro s; simp [splitN]
  | succ m ih =>
    intro s
    show (splitN c (m + 2) s).length = _
    rw [splitN]
    cases h : splitFirst c s with
    | none =>
      have hn : c ∉ s := (splitFirst_eq_none c s).mp h
      simp only [List.length_singleton, List.count_eq_zero.mpr hn]
      omega
    | some p =>
      obtain ⟨h1, h2⟩ := splitFirst_eq_some c s p.1 p.2 h
      subst h1
      simp only [List.length_cons, ih p.2, List.count_append, List.count_cons_self,
        List.count_eq_zero.mpr h2]
      omega

lemma isPrefixOf_iff_exists (p k : Str) : p.isPrefixOf k = true ↔ ∃ suf, k = p ++ suf := by
  rw [List.isPrefixOf_iff_prefix]
  constructor
  · rintro ⟨t, ht⟩; exact ⟨t, ht.symm⟩
  · rintro ⟨t, ht⟩; exact ⟨t, ht.symm⟩

lemma entryPfx_eq (s : Str) : entryPfx s = if s = ['/'] then ['/'] else s ++ ['/'] := by
  unfold entryPfx
  by_cases h : s = ['/'] <;> simp [h]

lemma depthMatchOne_inf (key s : Str) :
    depthMatchOne "INFINITY" key s = true ↔ ∃ suf, key = entryPfx s ++ suf := by
  unfold depthMatchOne
  by_cases h : entryPfx s |>.isPrefixOf key
  · rw [if_neg (by simp [h]), if_pos rfl]
    simpa using (isPrefixOf_iff_exists _ _).mp h
  · rw [if_pos (by simpa using h)]
    simp only [Bool.false_eq_true, false_iff, not_exists]
    intro suf hsuf
    exact h ((isPrefixOf_iff_exists _ _).mpr ⟨suf, hsuf⟩)

lemma depthMatchOne_one (key s : Str) :
    depthMatchOne "1" key s = true ↔ ∃ suf, key = entryPfx s ++ suf ∧ '/' ∉ suf := by
  unfold depthMatchOne
  by_cases h : entryPfx s |>.isPrefixOf key
  · obtain ⟨t, ht⟩ := (isPrefixOf_iff_exists _ _).mp h
    subst ht
    rw [if_neg (by simp [h]), if_neg (by simp), List.drop_left]
    simp only [decide_eq_true_eq, splitN_two_length]
    constructor
    · intro hmem; exact ⟨t, rfl, hmem⟩
    · rintro ⟨suf, hsuf, hmem⟩
      have : t = suf := by
        have := List.append_cancel_left hsuf
        exact this
      simpa [this] using hmem
  · rw [if_pos (by simpa using h)]
    simp only [Bool.false_eq_true, false_iff, not_exists]
    intro suf hsuf
    exact h ((isPrefixOf_iff_exists _ _).mpr ⟨suf, hsuf.1⟩)

/-- Claim C1: the hierarchical matcher. With depth empty or 0 a stored key
matches iff it is exactly one of the requested entry names; with depth
INFINITY iff it is a requested name or extends one, where the extension
prefix of entry e is e followed by a slash (just the slash when e is the
root slash, no doubled slash); with depth 1 additionally the remainder of
the key after that prefix must contain no further slash. -/
theorem c1_depth_matching (E : List Str) (k : Str) :
    (depthMatch E "" k = some true ↔ k ∈ E) ∧
    (depthMatch E "0" k = some true ↔ k ∈ E) ∧
    (depthMatch E "INFINITY" k = some true ↔
      (k ∈ E ∨ ∃ e ∈ E, ∃ suf, k = (if e = ['/'] then ['/'] else e ++ ['/']) ++ suf)) ∧
    (depthMatch E "1" k = some true ↔
      (k ∈ E ∨ ∃ e ∈ E, ∃ suf,
        k = (if e = ['/'] then ['/'] else e ++ ['/']) ++ suf ∧ '/' ∉ suf)) := by
  refine ⟨?_, ?_, ?_, ?_⟩
  · simp [depthMatch]
  · simp [depthMatch]
  · rw [depthMatch, if_neg (by simp), if_pos (by simp)]
    simp only [Option.some.injEq, Bool.or_eq_true, List.any_eq_true, List.contains_eq_any_beq,
      beq_iff_eq]
    constructor
    · rintro (⟨x, hx, rfl⟩ | ⟨e, he, hone⟩)
      · exact Or.inl hx
      · exact Or.inr ⟨e, he, by simpa [entryPfx_eq] using (depthMatchOne_inf k e).mp hone⟩
    · rintro (hk | ⟨e, he, suf, hsuf⟩)
      · exact Or.inl ⟨k, hk, rfl⟩
      · exact Or.inr ⟨e, he, (depthMatchOne_inf k e).mpr ⟨suf, by simpa [entryPfx_eq] using hsuf⟩⟩
  · rw [depthMatch, if_neg (by simp), if_pos (by simp)]
    simp only [Option.some.injEq, Bool.or_eq_true, List.any_eq_true, List.contains_eq_any_beq,
      beq_iff_eq]
    constructor
    · rintro (⟨x, hx, rfl⟩ | ⟨e, he, hone⟩)
      · exact Or.inl hx
      · obtain ⟨suf, hsuf, hmem⟩ := (depthMatchOne_one k e).mp hone
        exact Or.inr ⟨e, he, suf, by simpa [entryPfx_eq] using hsuf, hmem⟩
    · rintro (hk | ⟨e, he, suf, hsuf, hmem⟩)
      · exact Or.inl ⟨k, hk, rfl⟩
      · exact Or.inr ⟨e, he, (depthMatchOne_one k e).mpr
          ⟨suf, by simpa [entryPfx_eq] using hsuf, hmem⟩⟩

lemma annotSize_nil : annotSize [] = 0 := rfl

lemma annotSize_cons (a : AnnotationRow) (t : List AnnotationRow) :
    annotSize (a :: t) = rowSize a + annotSize t := by
  simp [annotSize]

/-- Exact outcome of the quota scan: the count error fires iff the table
has more rows than allowed and the size of the first maxKeys rows is
still within bounds (the count check of row maxKeys+1 is reached before
any size check can fail); the size error (carrying the configured limit)
fires iff the size bound is already exceeded within the first maxKeys
rows; otherwise the scan passes. -/
lemma quotaScan_eq (maxKeys maxSize : Nat) :
    ∀ (rows : List AnnotationRow) (n size : Nat), n ≤ maxKeys → size ≤ maxSize →
      quotaScan maxKeys maxSize n size rows =
        if maxKeys < n + rows.length ∧ size + annotSize (rows.take (maxKeys - n)) ≤ maxSize
        then some .toomany
        else if maxSize < size + annotSize (rows.take (maxKeys - n)) then some (.maxsize maxSize)
        else none := by
  intro rows
  induction rows with
  | nil =>
    intro n size hn hs
    rw [quotaScan]
    simp only [List.take_nil, annotSize_nil, List.length_nil]
    rw [if_neg (by omega), if_neg (by omega)]
  | cons a rest ih =>
    intro n size hn hs
    rw [quotaScan]
    by_cases h1 : maxKeys < n + 1
    · rw [if_pos h1]
      have hn0 : maxKeys - n = 0 := by omega
      rw [hn0]
      simp only [List.take_zero, annotSize_nil, List.length_cons]
      rw [if_pos (by omega)]
    · rw [if_neg h1]
      obtain ⟨m, hm⟩ : ∃ m, maxKeys - n = m + 1 := ⟨maxKeys - n - 1, by omega⟩
      have hm2 : maxKeys - (n + 1) = m := by omega
      by_cases h2 : maxSize < size + rowSize a
      · rw [if_pos h2, hm]
        simp only [List.take_succ_cons, annotSize_cons, List.length_cons]
        rw [if_neg (by omega), if_pos (by omega)]
      · rw [if_neg h2, ih (n + 1) (size + rowSize a) (by omega) (by omega), hm2, hm]
        simp only [List.take_succ_cons, annotSize_cons, List.length_cons]
        split_ifs <;> first | rfl | omega

/-- After successful validation, the SET command reduces to the quota
scan over the fully mutated account-wide table. -/
lemma setmetadata_quota (maxKeys maxSize mbID : Nat) (mbName : String)
    (db l₀ : List AnnotationRow) (hv : validateKeys l₀ = none) :
    setmetadata maxKeys maxSize mbID mbName db l₀ =
      match quotaScan maxKeys maxSize 0 0 (applyPairs mbID mbName db l₀).1 with
      | some e => .error e
      | none => .ok (applyPairs mbID mbName db l₀) := by
  unfold setmetadata
  rw [hv]

/-- Claim C2: a SET whose staged mutations violate a quota limit is
rejected as a whole — the persisted table after the failed command
equals the table before it and no change record is broadcast. -/
theorem c2_quota_rollback (maxKeys maxSize mbID : Nat) (mbName : String)
    (db l₀ : List AnnotationRow) (e : SetErr)
    (hv : validateKeys l₀ = none)
    (hq : quotaScan maxKeys maxSize 0 0 (applyPairs mbID mbName db l₀).1 = some e) :
    setmetadata maxKeys maxSize mbID mbName db l₀ = .error e ∧
    runSet maxKeys maxSize mbID mbName db l₀ = (db, []) := by
  have h1 : setmetadata maxKeys maxSize mbID mbName db l₀ = .error e := by
    rw [setmetadata_quota maxKeys maxSize mbID mbName db l₀ hv, hq]
  refine ⟨h1, ?_⟩
  unfold runSet
  rw [h1]

/-- Claim C3: after all mutations, the quota check scans the whole
account table (the post-mutation state, every scope) accumulating count
and size (len Key + len Value per row), the count check first on each
row; the command aborts with TOOMANY or with MAXSIZE carrying the
configured limit accordingly, one limit type per failure, and the
defaults are 1000 entries and 1,000,000 bytes. -/
theorem c3_quota_scan (maxKeys maxSize mbID : Nat) (mbName : String)
    (db l₀ : List AnnotationRow) (hv : validateKeys l₀ = none) :
    (metadataMaxKeys = 1000 ∧ metadataMaxSize = 1000000) ∧
    setmetadata maxKeys maxSize mbID mbName db l₀ =
      (if maxKeys < (applyPairs mbID mbName db l₀).1.length ∧
          annotSize ((applyPairs mbID mbName db l₀).1.take maxKeys) ≤ maxSize
       then .error .toomany
       else if maxSize < annotSize ((applyPairs mbID mbName db l₀).1.take maxKeys)
       then .error (.maxsize maxSize)
       else .ok (applyPairs mbID mbName db l₀)) := by
  refine ⟨⟨rfl, rfl⟩, ?_⟩
  rw [setmetadata_quota maxKeys maxSize mbID mbName db l₀ hv]
  have hq := quotaScan_eq maxKeys maxSize (applyPairs mbID mbName db l₀).1 0 0
    (Nat.zero_le _) (Nat.zero_le _)
  simp only [Nat.zero_add, Nat.sub_zero] at hq
  rw [hq]
  by_cases h1 : maxKeys < (applyPairs mbID mbName db l₀).1.length ∧
      annotSize ((applyPairs mbID mbName db l₀).1.take maxKeys) ≤ maxSize
  · rw [if_pos h1, if_pos h1]
  · rw [if_neg h1, if_neg h1]
    by_cases h2 : maxSize < annotSize ((applyPairs mbID mbName db l₀).1.take maxKeys)
    · rw [if_pos h2, if_pos h2]
    · rw [if_neg h2, if_neg h2]

lemma validateKeys_some_of_bad :
    ∀ (l₀ : List AnnotationRow),
      (∃ a ∈ l₀, ¬ ("/private/".toList.isPrefixOf a.Key) = true) →
      ∃ e, validateKeys l₀ = some e := by
  intro l₀
  induction l₀ with
  | nil => rintro ⟨a, ha, _⟩; cases ha
  | cons a rest ih =>
    rintro ⟨b, hb, hbk⟩
    cases hk : validateKey a.Key with
    | some e => exact ⟨e, by rw [validateKeys, hk]⟩
    | none =>
      rcases List.mem_cons.mp hb with rfl | hbr
      · exfalso
        unfold validateKey at hk
        rw [if_pos hbk] at hk
        cases hk
      · obtain ⟨e, he⟩ := ih ⟨b, hbr, hbk⟩
        exact ⟨e, by rw [validateKeys, hk, he]⟩

/-- Claim C5: a SET command containing an entry name that does not start
with /private/ fails validation with a user error (raised before the
write transaction opens), and no annotation row is created, updated or
deleted: the persisted table is unchanged and nothing is broadcast. -/
theorem c5_namespace_validation (maxKeys maxSize mbID : Nat) (mbName : String)
    (db l₀ : List AnnotationRow)
    (h : ∃ a ∈ l₀, ¬ ("/private/".toList.isPrefixOf a.Key) = true) :
    (∃ e, validateKeys l₀ = some e ∧
      setmetadata maxKeys maxSize mbID mbName db l₀ = .error e) ∧
    runSet maxKeys maxSize mbID mbName db l₀ = (db, []) := by
  obtain ⟨e, he⟩ := validateKeys_some_of_bad l₀ h
  have hs : setmetadata maxKeys maxSize mbID mbName db l₀ = .error e := by
    unfold setmetadata
    rw [he]
  refine ⟨⟨e, he, hs⟩, ?_⟩
  unfold runSet
  rw [hs]

/-- Claim C6: for an entry name equal to /private/vendor or starting with
/private/vendor/, SET validation fails (with the vendor-depth user
error) iff splitting the name without its leading slash on the slash
into at most 4 parts yields fewer than 4 parts — equivalently, iff it
holds fewer than 3 slashes after the leading one; names yielding 4 parts
pass validation. -/
theorem c6_vendor_depth (k : Str)
    (h : k = "/private/vendor".toList ∨ ("/private/vendor/".toList.isPrefixOf k) = true) :
    (validateKey k = some .vendorDepthErr ↔ (splitN '/' 4 (k.drop 1)).length < 4) ∧
    ((splitN '/' 4 (k.drop 1)).length < 4 ↔ (k.drop 1).count '/' < 3) ∧
    (¬ (splitN '/' 4 (k.drop 1)).length < 4 → validateKey k = none) := by
  have hpriv : ("/private/".toList.isPrefixOf k) = true := by
    rcases h with rfl | hp
    · decide
    · rw [isPrefixOf_iff_exists] at hp ⊢
      obtain ⟨t, rfl⟩ := hp
      refine ⟨"vendor/".toList ++ t, ?_⟩
      rw [← List.append_assoc]
      rfl
  have hcount : (splitN '/' 4 (k.drop 1)).length < 4 ↔ (k.drop 1).count '/' < 3 := by
    have h4 : (splitN '/' 4 (k.drop 1)).length = min ((k.drop 1).count '/' + 1) 4 :=
      splitN_length '/' 3 (k.drop 1)
    omega
  have hval : validateKey k =
      (if (splitN '/' 4 (k.drop 1)).length < 4 then some .vendorDepthErr else none) := by
    unfold validateKey
    rw [if_neg (not_not_intro hpriv), if_pos h]
  refine ⟨?_, hcount, ?_⟩
  · rw [hval]
    by_cases hlen : (splitN '/' 4 (k.drop 1)).length < 4
    · simp [hlen]
    · simp [hlen]
  · intro hlen
    rw [hval, if_neg hlen]

/-- Specification-side description: the stored rows matched by the
depth rule, in table order. -/
def specMatched (entryNames : List Str) (optDepth : String)
    (rows : List AnnotationRow) : List AnnotationRow :=
  rows.filter (fun a => decide (depthMatch entryNames optDepth a.Key = some true))

/-- Specification-side description: matched rows excluded because their
value length strictly exceeds the MAXSIZE bound. -/
def specExcluded (entryNames : List Str) (optDepth : String) (m : Nat)
    (rows : List AnnotationRow) : List AnnotationRow :=
  (specMatched entryNames optDepth rows).filter (fun a => decide (m < valueLen a))

/-- Specification-side description: matched rows kept in the result. -/
def specKept (entryNames : List Str) (optDepth : String) (m : Nat)
    (rows : List AnnotationRow) : List AnnotationRow :=
  (specMatched entryNames optDepth rows).filter (fun a => decide (valueLen a ≤ m))

lemma getScan_fold (entryNames : List Str) (optDepth : String) (m : Nat) :
    ∀ (rows : List AnnotationRow) (acc : GetAcc),
      rows.foldl (getStep entryNames optDepth (Int.ofNat m)) acc =
        ⟨acc.annotations ++ specKept entryNames optDepth m rows,
          (specExcluded entryNames optDepth m rows).foldl
            (fun x a => max x (Int.ofNat (valueLen a))) acc.longentries⟩ := by
  intro rows
  induction rows with
  | nil =>
    intro acc
    simp only [List.foldl_nil, specKept, specMatched, specExcluded, List.filter_nil,
      List.append_nil]
  | cons a rest ih =>
    intro acc
    rw [List.foldl_cons]
    by_cases hd : depthMatch entryNames optDepth a.Key = some true
    · by_cases hle : m < valueLen a
      · have hstep : getStep entryNames optDepth (Int.ofNat m) acc a =
            { acc with longentries := max acc.longentries (Int.ofNat (valueLen a)) } := by
          unfold getStep
          rw [hd]
          rw [if_pos ⟨Int.ofNat_nonneg m, Int.ofNat_lt.mpr hle⟩]
        have hk : specKept entryNames optDepth m (a :: rest) =
            specKept entryNames optDepth m rest := by
          simp [specKept, specMatched, List.filter_cons, hd, Nat.not_le.mpr hle]
        have he : specExcluded entryNames optDepth m (a :: rest) =
            a :: specExcluded entryNames optDepth m rest := by
          simp [specExcluded, specMatched, List.filter_cons, hd, hle]
        rw [hstep, ih, hk, he, List.foldl_cons]
      · have hstep : getStep entryNames optDepth (Int.ofNat m) acc a =
            { acc with annotations := acc.annotations ++ [a] } := by
          unfold getStep
          rw [hd]
          rw [if_neg (fun hc => hle (Int.ofNat_lt.mp hc.2))]
        have hk : specKept entryNames optDepth m (a :: rest) =
            a :: specKept entryNames optDepth m rest := by
          simp [specKept, specMatched, List.filter_cons, hd, Nat.not_lt.mp hle]
        have he : specExcluded entryNames optDepth m (a :: rest) =
            specExcluded entryNames optDepth m rest := by
          simp [specExcluded, specMatched, List.filter_cons, hd, hle]
        rw [hstep, ih, hk, he]
        simp [List.append_assoc]
    · have hstep : getStep entryNames optDepth (Int.ofNat m) acc a = acc := by
        unfold getStep
        rcases hdm : depthMatch entryNames optDepth a.Key with _ | b
        · rfl
        · cases b
          · rfl
          · exact absurd hdm hd
      have hk : specKept entryNames optDepth m (a :: rest) =
          specKept entryNames optDepth m rest := by
        simp [specKept, specMatched, List.filter_cons, hd]
      have he : specExcluded entryNames optDepth m (a :: rest) =
          specExcluded entryNames optDepth m rest := by
        simp [specExcluded, specMatched, List.filter_cons, hd]
      rw [hstep, ih, hk, he]

lemma foldl_max_init_le (f : AnnotationRow → Int) :
    ∀ (l : List AnnotationRow) (x : Int), x ≤ l.foldl (fun acc b => max acc (f b)) x := by
  intro l
  induction l with
  | nil => intro x; simp
  | cons a rest ih =>
    intro x
    rw [List.foldl_cons]
    exact le_trans (le_max_left x (f a)) (ih _)

lemma foldl_max_mem_le (f : AnnotationRow → Int) :
    ∀ (l : List AnnotationRow) (x : Int) (a : AnnotationRow), a ∈ l →
      f a ≤ l.foldl (fun acc b => max acc (f b)) x := by
  intro l
  induction l with
  | nil => intro x a ha; cases ha
  | cons b rest ih =>
    intro x a ha
    rw [List.foldl_cons]
    rcases List.mem_cons.mp ha with rfl | hr
    · exact le_trans (le_max_right x (f a)) (foldl_max_init_le f rest _)
    · exact ih _ a hr

lemma foldl_max_eq_init_or_mem (f : AnnotationRow → Int) :
    ∀ (l : List AnnotationRow) (x : Int),
      l.foldl (fun acc b => max acc (f b)) x = x ∨
      ∃ a ∈ l, l.foldl (fun acc b => max acc (f b)) x = f a := by
  intro l
  induction l with
  | nil => intro x; exact Or.inl rfl
  | cons b rest ih =>
    intro x
    rw [List.foldl_cons]
    rcases ih (max x (f b)) with h | ⟨a, ha, h⟩
    · rcases max_choice x (f b) with hm | hm
      · exact Or.inl (h.trans hm)
      · exact Or.inr ⟨b, List.mem_cons_self b rest, h.trans hm⟩
    · exact Or.inr ⟨a, List.mem_cons_of_mem b ha, h⟩

/-- Claim C4: under a MAXSIZE bound m, the GET scan keeps exactly the
matched rows whose value length is within m and excludes the longer
ones; longentries (which drives the METADATA LONGENTRIES response code,
emitted iff it is non-negative) stays -1 when nothing was excluded and
otherwise equals the maximum excluded value length. -/
theorem c4_maxsize_longentries (entryNames : List Str) (optDepth : String) (m : Nat)
    (rows : List AnnotationRow) :
    (getScan entryNames optDepth (Int.ofNat m) rows).annotations =
        specKept entryNames optDepth m rows ∧
    ((getScan entryNames optDepth (Int.ofNat m) rows).longentries = -1 ↔
        specExcluded entryNames optDepth m rows = []) ∧
    (∀ a ∈ specExcluded entryNames optDepth m rows,
        Int.ofNat (valueLen a) ≤ (getScan entryNames optDepth (Int.ofNat m) rows).longentries) ∧
    (specExcluded entryNames optDepth m rows ≠ [] →
        ∃ a ∈ specExcluded entryNames optDepth m rows,
          (getScan entryNames optDepth (Int.ofNat m) rows).longentries =
            Int.ofNat (valueLen a)) ∧
    (0 ≤ (getScan entryNames optDepth (Int.ofNat m) rows).longentries ↔
        specExcluded entryNames optDepth m rows ≠ []) := by
  have hg := getScan_fold entryNames optDepth m rows ⟨[], -1⟩
  unfold getScan
  rw [hg]
  simp only [List.nil_append]
  have hmem : ∀ a ∈ specExcluded entryNames optDepth m rows,
      Int.ofNat (valueLen a) ≤
        (specExcluded entryNames optDepth m rows).foldl
          (fun x b => max x (Int.ofNat (valueLen b))) (-1) :=
    fun a ha => foldl_max_mem_le (fun b => Int.ofNat (valueLen b)) _ (-1) a ha
  refine ⟨trivial, ?_, hmem, ?_, ?_⟩
  · constructor
    · intro hfold
      by_contra hne
      obtain ⟨a, ha⟩ := List.exists_mem_of_ne_nil _ hne
      have h1 := hmem a ha
      rw [hfold] at h1
      have h2 : (0 : Int) ≤ Int.ofNat (valueLen a) := Int.ofNat_nonneg _
      omega
    · intro hnil
      rw [hnil]
      rfl
  · intro hne
    rcases foldl_max_eq_init_or_mem (fun b => Int.ofNat (valueLen b))
        (specExcluded entryNames optDepth m rows) (-1) with h | h
    · exfalso
      obtain ⟨a, ha⟩ := List.exists_mem_of_ne_nil _ hne
      have h1 := hmem a ha
      rw [h] at h1
      have h2 : (0 : Int) ≤ Int.ofNat (valueLen a) := Int.ofNat_nonneg _
      omega
    · exact h
  · constructor
    · intro h0 hnil
      rw [hnil] at h0
      simp at h0
    · intro hne
      obtain ⟨a, ha⟩ := List.exists_mem_of_ne_nil _ hne
      exact le_trans (Int.ofNat_nonneg _) (hmem a ha)

/-- At most one row per (MailboxID, Key): Boolean uniqueness invariant
of the annotation table; the store enforces it via the composite unique
constraint of the data model. -/
def uniqueScoped : List AnnotationRow → Bool
  | [] => true
  | r :: rest =>
    rest.all (fun s => ! (s.MailboxID = r.MailboxID && s.Key = r.Key)) && uniqueScoped rest

lemma uniqueScoped_filter_le_one (mbID : Nat) (key : Str) :
    ∀ (db : List AnnotationRow), uniqueScoped db = true →
      (db.filter (annMatches mbID key)).length ≤ 1 := by
  intro db
  induction db with
  | nil => intro _; simp
  | cons r rest ih =>
    intro hu
    rw [uniqueScoped, Bool.and_eq_true] at hu
    obtain ⟨hall, hurest⟩ := hu
    rw [List.filter_cons]
    by_cases hr : annMatches mbID key r = true
    · rw [if_pos hr]
      have hempty : rest.filter (annMatches mbID key) = [] := by
        rw [List.filter_eq_nil_iff]
        intro s hs hmat
        have h1 := List.all_eq_true.mp hall s hs
        rw [annMatches, Bool.and_eq_true, decide_eq_true_eq, decide_eq_true_eq] at hr hmat
        have h2 : (s.MailboxID = r.MailboxID && s.Key = r.Key) = true := by
          rw [Bool.and_eq_true, decide_eq_true_eq, decide_eq_true_eq]
          constructor
          · rw [hmat.2]; exact hr.2.symm
          · rw [hmat.1]; exact hr.1.symm
        rw [h2] at h1
        exact absurd h1 (by decide)
      rw [hempty]
      simp
    · rw [if_neg hr]
      exact ih hurest

/-- Claim C7: change records of one SET pair. Deleting an existing key
emits one record and deleting an absent key emits none (and leaves the
table untouched, a silent no-op); inserting a fresh key emits one
record; updating an existing key emits one record exactly when the
stored IsString flag, the nilness or the value bytes differ from the
new ones, so a byte-identical update with the same flag emits none. -/
theorem c7_change_records (db : List AnnotationRow) (mbID : Nat) (mbName : String)
    (a : AnnotationRow) (hu : uniqueScoped db = true) :
    (a.Value = none →
      (applyPair mbID mbName db a).2.length =
          (if db.any (annMatches mbID a.Key) then 1 else 0) ∧
      (db.any (annMatches mbID a.Key) = false → (applyPair mbID mbName db a).1 = db)) ∧
    (a.Value ≠ none → db.find? (annMatches mbID a.Key) = none →
      (applyPair mbID mbName db a).2.length = 1) ∧
    (∀ oa, a.Value ≠ none → db.find? (annMatches mbID a.Key) = some oa →
      (applyPair mbID mbName db a).2.length =
        (if oa.IsString ≠ a.IsString ∨ (oa.Value = none) ≠ (a.Value = none)
            ∨ ¬ bytesEqual oa.Value a.Value then 1 else 0)) := by
  refine ⟨?_, ?_, ?_⟩
  · intro hv
    have hpair : applyPair mbID mbName db a =
        (db.filter (fun r => ! annMatches mbID a.Key r),
          (db.filter (annMatches mbID a.Key)).map (fun oa => ⟨mbName, oa⟩)) := by
      unfold applyPair
      rw [if_pos hv]
    rw [hpair]
    constructor
    · simp only [List.length_map]
      by_cases hany : db.any (annMatches mbID a.Key) = true
      · rw [if_pos hany]
        obtain ⟨x, hx, hpx⟩ := List.any_eq_true.mp hany
        have hlen1 : 0 < (db.filter (annMatches mbID a.Key)).length := by
          have hmem : x ∈ db.filter (annMatches mbID a.Key) := List.mem_filter.mpr ⟨hx, hpx⟩
          exact List.length_pos.mpr (List.ne_nil_of_mem hmem)
        have hlen2 := uniqueScoped_filter_le_one mbID a.Key db hu
        omega
      · rw [if_neg hany]
        rw [Bool.not_eq_true] at hany
        have : db.filter (annMatches mbID a.Key) = [] := by
          rw [List.filter_eq_nil_iff]
          intro x hx hpx
          rw [List.any_eq_false] at hany
          exact hany x hx hpx
        rw [this]
        rfl
    · intro hany
      rw [List.any_eq_false] at hany
      rw [List.filter_eq_self]
      intro x hx
      have hnx := hany x hx
      cases hb : annMatches mbID a.Key x with
      | false => rfl
      | true => exact absurd hb hnx
  · intro hv hfind
    unfold applyPair
    rw [if_neg hv, hfind]
    rfl
  · intro oa hv hfind
    have hpair : applyPair mbID mbName db a =
        (db.map (fun r => if annMatches mbID a.Key r then { r with Value := a.Value } else r),
          if oa.IsString ≠ a.IsString ∨ (oa.Value = none) ≠ (a.Value = none)
              ∨ ¬ bytesEqual oa.Value a.Value
          then [⟨mbName, { a with MailboxID := mbID }⟩] else []) := by
      unfold applyPair
      rw [if_neg hv, hfind]
    rw [hpair]
    by_cases hc : oa.IsString ≠ a.IsString ∨ (oa.Value = none) ≠ (a.Value = none)
        ∨ ¬ bytesEqual oa.Value a.Value
    · rw [if_pos hc, if_pos hc]
      rfl
    · rw [if_neg hc, if_neg hc]
      rfl

/-- Claim C10: updating an existing key replaces only the stored row's
Value field — MailboxID, Key and in particular the persisted IsString
flag keep the old row's values even when the request supplies a
different flag, in which case a change record is still emitted (for the
new annotation value) although the flag difference is not persisted. -/
theorem c10_update_value_only (db : List AnnotationRow) (mbID : Nat) (mbName : String)
    (a oa : AnnotationRow) (v : Str) (hv : a.Value = some v)
    (hfind : db.find? (annMatches mbID a.Key) = some oa) :
    (applyPair mbID mbName db a).1 =
      db.map (fun r => if annMatches mbID a.Key r then { r with Value := some v } else r) ∧
    (applyPair mbID mbName db a).1.map (fun r => r.MailboxID) =
      db.map (fun r => r.MailboxID) ∧
    (applyPair mbID mbName db a).1.map (fun r => r.Key) = db.map (fun r => r.Key) ∧
    (applyPair mbID mbName db a).1.map (fun r => r.IsString) =
      db.map (fun r => r.IsString) ∧
    (oa.IsString ≠ a.IsString →
      (applyPair mbID mbName db a).2 = [⟨mbName, { a with MailboxID := mbID }⟩]) := by
  have hvne : a.Value ≠ none := by rw [hv]; exact Option.some_ne_none v
  have hpair : applyPair mbID mbName db a =
      (db.map (fun r => if annMatches mbID a.Key r then { r with Value := a.Value } else r),
        if oa.IsString ≠ a.IsString ∨ (oa.Value = none) ≠ (a.Value = none)
            ∨ ¬ bytesEqual oa.Value a.Value
        then [⟨mbName, { a with MailboxID := mbID }⟩] else []) := by
    unfold applyPair
    rw [if_neg hvne, hfind]
  rw [hpair, hv]
  refine ⟨rfl, ?_, ?_, ?_, ?_⟩
  · rw [List.map_map]
    refine List.map_congr_left ?_
    intro r _
    by_cases hr : annMatches mbID a.Key r = true
    · simp [hr]
    · simp [hr]
  · rw [List.map_map]
    refine List.map_congr_left ?_
    intro r _
    by_cases hr : annMatches mbID a.Key r = true
    · simp [hr]
    · simp [hr]
  · rw [List.map_map]
    refine List.map_congr_left ?_
    intro r _
    by_cases hr : annMatches mbID a.Key r = true
    · simp [hr]
    · simp [hr]
  · intro hflag
    rw [if_pos (Or.inl hflag)]

/-! Helper lemmas about the modelled reader primitives. -/

lemma takeTok_head_ne (p : Char) (ps : Str) (c : Char) (xs : Str) (h : ¬ c.toUpper = p) :
    takeTok (p :: ps) (c :: xs) = none := by
  unfold takeTok
  rw [if_neg]
  intro hEq
  rw [List.length_cons, List.take_succ_cons, List.map_cons] at hEq
  injection hEq with h1 _
  exact h h1

lemma takeTok_some_head (p : Char) (ps rem r : Str) (h : takeTok (p :: ps) rem = some r) :
    ∃ c xs, rem = c :: xs ∧ c.toUpper = p := by
  unfold takeTok at h
  rcases rem with _ | ⟨c, xs⟩
  · simp at h
  · refine ⟨c, xs, rfl, ?_⟩
    by_cases hc : ((c :: xs).take (p :: ps).length).map Char.toUpper = p :: ps
    · rw [List.length_cons, List.take_succ_cons, List.map_cons] at hc
      exact (List.cons_eq_cons.mp hc).1
    · rw [if_neg hc] at h
      cases h

lemma takeTok_one (c0 c : Char) (xs : Str) :
    takeTok [c0] (c :: xs) = if c.toUpper = c0 then some xs else none := by
  by_cases h : c.toUpper = c0
  · rw [if_pos h]
    unfold takeTok
    rw [if_pos]
    · rfl
    · simp [List.take_succ_cons, h]
  · rw [if_neg h]
    exact takeTok_head_ne c0 [] c xs h

/-- One step of the option loop when a MAXSIZE token is next. -/
lemma getOptionsLoop_maxsize_step (f : Nat) (optMaxSize : Int) (optDepth : String)
    (rem rem1 : Str) (ht : takeTok "MAXSIZE".toList rem = some rem1) :
    getOptionsLoop (f + 1) optMaxSize optDepth rem =
      (match xspace rem1 with
      | none => .error errSpace
      | some rem2 =>
        match xnumber rem2 with
        | none => .error errNumber
        | some vr =>
          if 0 ≤ optMaxSize then .error errDupMaxsize
          else
            match takeTok [')'] vr.2 with
            | some rem4 => .ok (⟨Int.ofNat vr.1, optDepth⟩, rem4)
            | none =>
              match xspace vr.2 with
              | none => .error errSpace
              | some rem4 => getOptionsLoop f (Int.ofNat vr.1) optDepth rem4) := by
  rw [getOptionsLoop, ht]

/-- One step of the option loop when a DEPTH token is next. -/
lemma getOptionsLoop_depth_step (f : Nat) (optMaxSize : Int) (optDepth : String)
    (rem rem1 : Str) (hM : takeTok "MAXSIZE".toList rem = none)
    (ht : takeTok "DEPTH".toList rem = some rem1) :
    getOptionsLoop (f + 1) optMaxSize optDepth rem =
      (match xspace rem1 with
      | none => .error errSpace
      | some rem2 =>
        match xtakelist ["0".toList, "1".toList, "INFINITY".toList] rem2 with
        | none => .error errDepthValue
        | some sr =>
          if optDepth ≠ "" then .error errDupDepth
          else
            match takeTok [')'] sr.2 with
            | some rem4 => .ok (⟨optMaxSize, String.mk sr.1⟩, rem4)
            | none =>
              match xspace sr.2 with
              | none => .error errSpace
              | some rem4 => getOptionsLoop f optMaxSize (String.mk sr.1) rem4) := by
  rw [getOptionsLoop, hM, ht]

/-- One step of the option loop when neither keyword is next. -/
lemma getOptionsLoop_unknown_step (f : Nat) (optMaxSize : Int) (optDepth : String)
    (rem : Str) (hM : takeTok "MAXSIZE".toList rem = none)
    (hD : takeTok "DEPTH".toList rem = none) :
    getOptionsLoop (f + 1) optMaxSize optDepth rem = .error errUnknownOption := by
  rw [getOptionsLoop, hM, hD]

/-- Claim C8: protocol errors of the GETMETADATA option loop. With a
MAXSIZE already recorded (non-negative loop state) a further MAXSIZE
token fails; with a DEPTH already recorded (non-empty loop state) a
further DEPTH token fails; a DEPTH argument matching none of 0, 1,
INFINITY fails; and an upcoming token that is neither MAXSIZE nor DEPTH
fails immediately with the unknown-option error (no skipping). -/
theorem c8_option_errors (f : Nat) (optMaxSize : Int) (optDepth : String)
    (rem rem1 rem2 : Str) :
    (0 ≤ optMaxSize → takeTok "MAXSIZE".toList rem = some rem1 →
      ∃ e, getOptionsLoop (f + 1) optMaxSize optDepth rem = .error e) ∧
    (optDepth ≠ "" → takeTok "DEPTH".toList rem = some rem1 →
      ∃ e, getOptionsLoop (f + 1) optMaxSize optDepth rem = .error e) ∧
    (takeTok "DEPTH".toList rem = some rem1 → xspace rem1 = some rem2 →
      xtakelist ["0".toList, "1".toList, "INFINITY".toList] rem2 = none →
      ∃ e, getOptionsLoop (f + 1) optMaxSize optDepth rem = .error e) ∧
    (takeTok "MAXSIZE".toList rem = none → takeTok "DEPTH".toList rem = none →
      getOptionsLoop (f + 1) optMaxSize optDepth rem = .error errUnknownOption) := by
  have hMofD : ∀ r1 : Str, takeTok "DEPTH".toList rem = some r1 →
      takeTok "MAXSIZE".toList rem = none := by
    intro r1 hD
    rw [show "DEPTH".toList = 'D' :: "EPTH".toList from rfl] at hD
    obtain ⟨c, xs, rfl, hcup⟩ := takeTok_some_head 'D' "EPTH".toList rem r1 hD
    rw [show "MAXSIZE".toList = 'M' :: "AXSIZE".toList from rfl]
    exact takeTok_head_ne 'M' "AXSIZE".toList c xs (by rw [hcup]; decide)
  refine ⟨?_, ?_, ?_, ?_⟩
  · intro h0 ht
    rw [getOptionsLoop_maxsize_step f optMaxSize optDepth rem rem1 ht]
    cases hx : xspace rem1 with
    | none => exact ⟨errSpace, rfl⟩
    | some r2 =>
      cases hn : xnumber r2 with
      | none => exact ⟨errNumber, by simp only [hn]⟩
      | some vr => exact ⟨errDupMaxsize, by simp only [hn]; rw [if_pos h0]⟩
  · intro hne ht
    rw [getOptionsLoop_depth_step f optMaxSize optDepth rem rem1 (hMofD rem1 ht) ht]
    cases hx : xspace rem1 with
    | none => exact ⟨errSpace, rfl⟩
    | some r2 =>
      cases hl : xtakelist ["0".toList, "1".toList, "INFINITY".toList] r2 with
      | none => exact ⟨errDepthValue, by simp only [hl]⟩
      | some sr => exact ⟨errDupDepth, by simp only [hl]; rw [if_pos hne]⟩
  · intro ht hx hl
    rw [getOptionsLoop_depth_step f optMaxSize optDepth rem rem1 (hMofD rem1 ht) ht]
    exact ⟨errDepthValue, by simp only [hx, hl]⟩
  · intro h1 h2
    exact getOptionsLoop_unknown_step f optMaxSize optDepth rem h1 h2

/-- Claim C9 counterexample: a GETMETADATA command whose option list is
the empty pair of parentheses, followed by a mailbox name and an entry
name, is rejected by the option parser with a protocol error. -/
theorem c9_counterexample :
    getmetadataOptions "() INBOX /private/comment".toList = .error errUnknownOption := by
  rfl

/-- Claim C9 amended: the parenthesized GETMETADATA option list admits
one or more options, not zero — an empty option list followed by
anything fails with the unknown-option protocol error, while a list
with a single option parses without error. -/
theorem c9_amended :
    (∀ rest : Str, getmetadataOptions ('(' :: ')' :: rest) = .error errUnknownOption) ∧
    getmetadataOptions "(MAXSIZE 5) X".toList = .ok (⟨5, ""⟩, ['X']) := by
  constructor
  · intro rest
    have h1 : takeTok ['('] ('(' :: ')' :: rest) = some (')' :: rest) := by
      rw [takeTok_one, if_pos (by decide)]
    have h2 : takeTok "MAXSIZE".toList (')' :: rest) = none := by
      rw [show "MAXSIZE".toList = 'M' :: "AXSIZE".toList from rfl]
      exact takeTok_head_ne 'M' "AXSIZE".toList ')' rest (by decide)
    have h3 : takeTok "DEPTH".toList (')' :: rest) = none := by
      rw [show "DEPTH".toList = 'D' :: "EPTH".toList from rfl]
      exact takeTok_head_ne 'D' "EPTH".toList ')' rest (by decide)
    have hloop : getOptionsLoop ((')' :: rest).length + 1) (-1) "" (')' :: rest) =
        .error errUnknownOption := by
      rw [show (')' :: rest).length + 1 = rest.length + 1 + 1 from by
        rw [List.length_cons]]
      exact getOptionsLoop_unknown_step (rest.length + 1) (-1) "" (')' :: rest) h2 h3
    unfold getmetadataOptions
    simp only [h1, hloop]
  · rfl

/-! Concrete inputs used by the witnesses. -/

/-- Three fresh pairs under the global scope, one SET batch. -/
def exSet3 : List AnnotationRow :=
  [⟨0, "/private/k1".toList, true, some ("x".toList)⟩,
   ⟨0, "/private/k2".toList, true, some ("x".toList)⟩,
   ⟨0, "/private/k3".toList, true, some ("x".toList)⟩]

/-- One pair whose key and value outgrow a tiny size limit. -/
def exSet1 : List AnnotationRow := [⟨0, "/private/x".toList, true, some ("ab".toList)⟩]

/-- One pair with a key outside the private namespace. -/
def exShared : List AnnotationRow := [⟨0, "/shared/comment".toList, true, some ("v".toList)⟩]

/-- A one-row table for the update examples. -/
def exDb : List AnnotationRow := [⟨0, "/private/c".toList, true, some ("v".toList)⟩]

/-- The stored row of exDb. -/
def exRow : AnnotationRow := ⟨0, "/private/c".toList, true, some ("v".toList)⟩

/-- Update pair: same key, different flag and value. -/
def exUpd : AnnotationRow := ⟨0, "/private/c".toList, false, some ("w".toList)⟩

/-- Stored rows with a 50-byte and a 5-byte value. -/
def exRows : List AnnotationRow :=
  [⟨0, "/private/k1".toList, true, some (List.replicate 50 'a')⟩,
   ⟨0, "/private/k2".toList, true, some ("hello".toList)⟩]

/-- Claim C1 witness: the spec's depth example, the matcher theorem
applied at concrete inputs. -/
theorem c1_witness :
    depthMatch ["/private/a".toList] "1" "/private/a/b".toList = some true :=
  (c1_depth_matching ["/private/a".toList] "/private/a/b".toList).2.2.2.mpr
    (Or.inr ⟨"/private/a".toList, by decide, "b".toList, by decide, by decide⟩)

/-- Claim C2 witness: with a key limit of 2, one SET creating three
fresh keys in one batch is rejected whole and persists nothing. -/
theorem c2_witness :
    (validateKeys exSet3 = none ∧
      quotaScan 2 1000000 0 0 (applyPairs 0 "" [] exSet3).1 = some .toomany) ∧
    (setmetadata 2 1000000 0 "" [] exSet3 = .error .toomany ∧
      runSet 2 1000000 0 "" [] exSet3 = ([], [])) :=
  ⟨⟨by decide, by decide⟩,
    c2_quota_rollback 2 1000000 0 "" [] exSet3 .toomany (by decide) (by decide)⟩

/-- Claim C3 witness: the size limit fires (carrying the configured
limit) on a small concrete SET. -/
theorem c3_witness :
    validateKeys exSet1 = none ∧
    ((metadataMaxKeys = 1000 ∧ metadataMaxSize = 1000000) ∧
      setmetadata 1000 3 0 "" [] exSet1 =
        (if 1000 < (applyPairs 0 "" [] exSet1).1.length ∧
            annotSize ((applyPairs 0 "" [] exSet1).1.take 1000) ≤ 3
         then .error .toomany
         else if 3 < annotSize ((applyPairs 0 "" [] exSet1).1.take 1000)
         then .error (.maxsize 3)
         else .ok (applyPairs 0 "" [] exSet1))) :=
  ⟨by decide, c3_quota_scan 1000 3 0 "" [] exSet1 (by decide)⟩

/-- Claim C4 witness: the scan theorem applied at the spec's MAXSIZE
example (50-byte and 5-byte values under a bound of 10). -/
theorem c4_witness :
    (getScan ["/private/k1".toList, "/private/k2".toList] "" (Int.ofNat 10) exRows).annotations
      = specKept ["/private/k1".toList, "/private/k2".toList] "" 10 exRows :=
  (c4_maxsize_longentries ["/private/k1".toList, "/private/k2".toList] "" 10 exRows).1

/-- Claim C5 witness: one shared-namespace key rejects the SET and
leaves the table unchanged. -/
theorem c5_witness :
    (∃ a ∈ exShared, ¬ ("/private/".toList.isPrefixOf a.Key) = true) ∧
    ((∃ e, validateKeys exShared = some e ∧
        setmetadata 2 5 0 "" [] exShared = .error e) ∧
      runSet 2 5 0 "" [] exShared = ([], [])) :=
  ⟨by decide, c5_namespace_validation 2 5 0 "" [] exShared (by decide)⟩

/-- Claim C6 witness: a vendor key with two segments after vendor
passes the depth rule. -/
theorem c6_witness :
    ("/private/vendor/acme/x".toList = "/private/vendor".toList ∨
      ("/private/vendor/".toList.isPrefixOf "/private/vendor/acme/x".toList) = true) ∧
    ((validateKey "/private/vendor/acme/x".toList = some .vendorDepthErr ↔
        (splitN '/' 4 ("/private/vendor/acme/x".toList.drop 1)).length < 4) ∧
      ((splitN '/' 4 ("/private/vendor/acme/x".toList.drop 1)).length < 4 ↔
        ("/private/vendor/acme/x".toList.drop 1).count '/' < 3) ∧
      (¬ (splitN '/' 4 ("/private/vendor/acme/x".toList.drop 1)).length < 4 →
        validateKey "/private/vendor/acme/x".toList = none)) :=
  ⟨by decide, c6_vendor_depth "/private/vendor/acme/x".toList (by decide)⟩

/-- Claim C7 witness: updating the stored row to a byte-identical value
with the same flag emits no change record. -/
theorem c7_witness :
    uniqueScoped exDb = true ∧
    (applyPair 0 "" exDb exRow).2.length =
      (if exRow.IsString ≠ exRow.IsString ∨ (exRow.Value = none) ≠ (exRow.Value = none)
          ∨ ¬ bytesEqual exRow.Value exRow.Value then 1 else 0) :=
  ⟨by decide,
    (c7_change_records exDb 0 "" exRow (by decide)).2.2 exRow (by decide) (by decide)⟩

/-- Claim C8 witness: a second MAXSIZE in the option list fails. -/
theorem c8_witness :
    (0 ≤ (7 : Int) ∧ takeTok "MAXSIZE".toList ("MAXSIZE 1)".toList) = some (" 1)".toList)) ∧
    (∃ e, getOptionsLoop 6 7 "" ("MAXSIZE 1)".toList) = .error e) :=
  ⟨⟨by decide, by decide⟩,
    (c8_option_errors 5 7 "" ("MAXSIZE 1)".toList) (" 1)".toList) []).1
      (by decide) (by decide)⟩

/-- Claim C9 witness: the amended statement applied to a concrete
command tail. -/
theorem c9_witness :
    getmetadataOptions ('(' :: ')' :: " INBOX /private/a".toList) = .error errUnknownOption :=
  c9_amended.1 (" INBOX /private/a".toList)

/-- Claim C10 witness: updating with a different flag and value keeps
the stored flag, replaces the value, and emits one change record. -/
theorem c10_witness :
    (exUpd.Value = some ("w".toList) ∧ exDb.find? (annMatches 0 exUpd.Key) = some exRow) ∧
    ((applyPair 0 "" exDb exUpd).1 =
        exDb.map (fun r =>
          if annMatches 0 exUpd.Key r then { r with Value := some ("w".toList) } else r) ∧
      (applyPair 0 "" exDb exUpd).1.map (fun r => r.MailboxID) =
        exDb.map (fun r => r.MailboxID) ∧
      (applyPair 0 "" exDb exUpd).1.map (fun r => r.Key) = exDb.map (fun r => r.Key) ∧
      (applyPair 0 "" exDb exUpd).1.map (fun r => r.IsString) =
        exDb.map (fun r => r.IsString) ∧
      (exRow.IsString ≠ exUpd.IsString →
        (applyPair 0 "" exDb exUpd).2 = [⟨"", { exUpd with MailboxID := 0 }⟩])) :=
  ⟨⟨by decide, by decide⟩,
    c10_update_value_only exDb 0 "" exUpd exRow ("w".toList) (by decide) (by decide)⟩

end Mox
